import Mathlib

/-!
Verification of the concurrent counter store in `src/mainwindow.cpp` /
`src/mainwindow.h` against its specification.

The `CounterManager` class guards a `std::vector<int> counters_` with a
mutex; each public member function holds the lock for its whole body, so
each operation is a function from the list of counters to a new list.
We embed the vector as `List Int` (C++ `int` values; signed overflow on a
single counter increment is undefined behaviour in C++ and is modelled by
exact integer arithmetic, while the deliberate wrap-around of the
`std::accumulate` sum in `MainWindow::updateFrequency` is modelled
explicitly by `toInt32`).
-/

namespace CounterManager

/-- `CounterManager::addCounter(int value)`: `counters_.push_back(value)`. -/
def addCounter (value : Int) (counters : List Int) : List Int :=
  counters ++ [value]

/-- `CounterManager::deleteCounter(int index)`: erases the element at
`counters_.begin() + index` when `index >= 0 && index < counters_.size()`,
otherwise does nothing. -/
def deleteCounter (index : Int) (counters : List Int) : List Int :=
  if 0 ≤ index ∧ index < (counters.length : Int) then
    counters.eraseIdx index.toNat
  else
    counters

/-- `CounterManager::getCounters()`: returns a copy of `counters_`. -/
def getCounters (counters : List Int) : List Int :=
  counters

/-- `CounterManager::incrementAll()`: `++counter` for every element. -/
def incrementAll (counters : List Int) : List Int :=
  counters.map (fun c => c + 1)

/-- `CounterManager::setCounters(const std::vector<int>&)`:
`counters_ = counters`, discarding the previous contents. -/
def setCounters (counters : List Int) (_old : List Int) : List Int :=
  counters

end CounterManager

/-- The public operations of the counter store, as invoked by the
presentation layer, the increment driver and the persistence path. -/
inductive StoreOp where
  | add (value : Int)
  | remove (index : Int)
  | incrementAll
  | snapshot
  | replaceAll (counters : List Int)
deriving Repr, DecidableEq

/-- Effect of one store operation on the guarded collection.
`snapshot` (`getCounters`) returns a copy and leaves the state as is. -/
def applyOp : StoreOp → List Int → List Int
  | .add v, s => CounterManager.addCounter v s
  | .remove i, s => CounterManager.deleteCounter i s
  | .incrementAll, s => CounterManager.incrementAll s
  | .snapshot, s => CounterManager.getCounters s
  | .replaceAll xs, s => CounterManager.setCounters xs s

/-- Auxiliary: iterating `incrementAll` `n` times adds `n` to every element. -/
theorem incrementAll_iterate (n : ℕ) (xs : List Int) :
    CounterManager.incrementAll^[n] xs = xs.map (fun c => c + (n : Int)) := by
  induction n generalizing xs with
  | zero =>
    simp [List.map_id]
  | succ k ih =>
    rw [Function.iterate_succ_apply, ih]
    simp only [CounterManager.incrementAll, List.map_map]
    apply List.map_congr_left
    intro a _
    simp only [Function.comp_apply]
    push_cast
    ring

/-- C1: calling `incrementAll()` `n` times on a collection of length `L`
leaves the length `L` unchanged and increases every element's value by
exactly `n`, for all `n ≥ 0`. -/
theorem c1_incrementAll_n_times (n : ℕ) (xs : List Int) :
    (CounterManager.incrementAll^[n] xs).length = xs.length ∧
    ∀ i : ℕ, (CounterManager.incrementAll^[n] xs)[i]? =
      (xs[i]?).map (fun c => c + (n : Int)) := by
  rw [incrementAll_iterate]
  refine ⟨List.length_map _ _, fun i => ?_⟩
  simp [List.getElem?_map]

/-- C3: `replaceAll(X)` (`setCounters`) followed immediately by
`snapshot()` (`getCounters`) returns exactly `X`. -/
theorem c3_replaceAll_then_snapshot (X s : List Int) :
    CounterManager.getCounters (CounterManager.setCounters X s) = X :=
  rfl

/-- C2: `remove(index)` with `0 ≤ index < length` deletes exactly the
element at that position and shifts the subsequent elements left by one;
with `index` outside `[0, length)` it leaves the collection unchanged. -/
theorem c2_deleteCounter_spec (index : Int) (xs : List Int) :
    (0 ≤ index ∧ index < (xs.length : Int) →
      CounterManager.deleteCounter index xs =
        xs.take index.toNat ++ xs.drop (index.toNat + 1)) ∧
    (¬(0 ≤ index ∧ index < (xs.length : Int)) →
      CounterManager.deleteCounter index xs = xs) := by
  constructor
  · intro h
    rw [CounterManager.deleteCounter, if_pos h]
    exact List.eraseIdx_eq_take_drop_succ xs index.toNat
  · intro h
    rw [CounterManager.deleteCounter, if_neg h]

/-- Witness for C2: in-range removal at index 1 of `[10, 20, 30]` and the
out-of-range no-op at index 3. -/
theorem c2_deleteCounter_spec_witness :
    CounterManager.deleteCounter 1 [10, 20, 30] = [10, 30] ∧
    CounterManager.deleteCounter 3 [10, 20, 30] = [10, 20, 30] := by
  have h1 := (c2_deleteCounter_spec 1 [10, 20, 30]).1 (by decide)
  have h2 := (c2_deleteCounter_spec 3 [10, 20, 30]).2 (by decide)
  exact ⟨h1.trans (by decide), h2⟩

/-- Counterexample for C7: `replaceAll` (`setCounters`), run on the empty
collection with a one-element replacement, changes the length, so it is
false that every operation besides add/remove preserves the length. -/
theorem c7_replaceAll_changes_length :
    ¬ (applyOp (StoreOp.replaceAll [0]) []).length = ([] : List Int).length := by
  decide

/-- C7 (amended): of the store operations, `incrementAll` and `snapshot`
preserve the length of the collection; the length changes only through
`add`, `remove` and the bulk-restore `replaceAll`. -/
theorem c7_length_preservation (s : List Int) :
    (applyOp StoreOp.incrementAll s).length = s.length ∧
    (applyOp StoreOp.snapshot s).length = s.length := by
  refine ⟨?_, rfl⟩
  simp [applyOp, CounterManager.incrementAll]

/-!
The rate estimator, `MainWindow::updateFrequency`, runs on a 1000 ms
timer.  It reads the current counters, sums them with
`std::accumulate(begin, end, 0)` — an `int` accumulation that wraps at
the 32-bit boundary on the target platform — and then either records a
baseline (first tick, `elapsedTimer` not yet valid) or emits
`(currentSum - previousSum) / (elapsed-ms / 1000.0)` and restarts the
timer.  Exact rational arithmetic stands in for the `double` arithmetic
of the source, per the spec's floating-point-tolerance proviso; time is
the millisecond reading an already-started `QElapsedTimer` would give.
-/

/-- Reduction of an integer into the 32-bit two's-complement range
`[-2^31, 2^31)`, the value an `int` holds after wrap-around. -/
def toInt32 (n : Int) : Int :=
  (n + 2 ^ 31) % 2 ^ 32 - 2 ^ 31

/-- `std::accumulate(counters.begin(), counters.end(), 0)`: a left fold
in `int` arithmetic, each partial sum wrapped into the `int` range. -/
def accumulateInt (counters : List Int) : Int :=
  counters.foldl (fun acc x => toInt32 (acc + x)) 0

/-- Persistent state of the rate estimator: `elapsedTimer` (validity flag
and the instant, in ms, it was last started or restarted) together with
`previousSum`. -/
structure FreqState where
  timerValid : Bool
  timerStart : Int
  previousSum : ℚ
deriving Repr, DecidableEq

/-- `MainWindow::updateFrequency` at instant `now` (ms): returns the new
estimator state and the frequency written to the label, if any. -/
def updateFrequency (st : FreqState) (counters : List Int) (now : Int) :
    FreqState × Option ℚ :=
  let currentSum : ℚ := (accumulateInt counters : ℚ)
  if st.timerValid = false then
    (⟨true, now, currentSum⟩, none)
  else
    let timeDiff : ℚ := ((now - st.timerStart : Int) : ℚ) / 1000
    if timeDiff ≤ 0 then
      (st, none)
    else
      (⟨true, now, currentSum⟩, some ((currentSum - st.previousSum) / timeDiff))

/-- C4: the estimator's very first tick records the current sum and time
as a baseline and emits no rate; on an armed tick with recorded sum `S0`
at `t0` and current sum `S1` at `t1 > t0` it emits exactly
`(S1 - S0) / ((t1 - t0) / 1000)` (elapsed ms converted to seconds),
updates the stored sum and time to `(S1, t1)`, and a negative difference
yields a negative rate, not one clamped to zero. -/
theorem c4_updateFrequency_spec (st : FreqState) (counters : List Int) (now : Int) :
    (st.timerValid = false →
      updateFrequency st counters now =
        (⟨true, now, (accumulateInt counters : ℚ)⟩, none)) ∧
    (st.timerValid = true → st.timerStart < now →
      updateFrequency st counters now =
        (⟨true, now, (accumulateInt counters : ℚ)⟩,
          some (((accumulateInt counters : ℚ) - st.previousSum) /
            (((now - st.timerStart : Int) : ℚ) / 1000))) ∧
      ((accumulateInt counters : ℚ) < st.previousSum →
        ((accumulateInt counters : ℚ) - st.previousSum) /
          (((now - st.timerStart : Int) : ℚ) / 1000) < 0)) := by
  constructor
  · intro h
    rw [updateFrequency, if_pos h]
  · intro hv ht
    have hpos : (0 : ℚ) < ((now - st.timerStart : Int) : ℚ) / 1000 := by
      have : (0 : ℚ) < ((now - st.timerStart : Int) : ℚ) := by
        exact_mod_cast Int.sub_pos.mpr ht
      positivity
    constructor
    · rw [updateFrequency]
      rw [if_neg (by simp [hv]), if_neg (not_le.mpr hpos)]
    · intro hneg
      exact div_neg_of_neg_of_pos (sub_neg.mpr hneg) hpos

/-- Witness for C4: a first tick from the invalid state, then an armed
tick 500 ms later over counters summing to 1 with recorded sum 3 — rate
`(1 - 3) / 0.5 = -4`, negative and unclamped. -/
theorem c4_updateFrequency_spec_witness :
    updateFrequency ⟨false, 0, 0⟩ [1] 200 = (⟨true, 200, 1⟩, none) ∧
    updateFrequency ⟨true, 200, 3⟩ [1] 700 = (⟨true, 700, 1⟩, some (-4)) := by
  have h1 := (c4_updateFrequency_spec ⟨false, 0, 0⟩ [1] 200).1 rfl
  have h2 := ((c4_updateFrequency_spec ⟨true, 200, 3⟩ [1] 700).2 rfl (by decide)).1
  refine ⟨by rw [h1]; norm_num [accumulateInt, toInt32], ?_⟩
  rw [h2]
  norm_num [accumulateInt, toInt32]

/-- C8: on an armed tick whose elapsed time is non-positive
(`now ≤ timerStart`, so `timeDiff ≤ 0`), the estimator emits no rate and
leaves the stored sum and time unchanged. -/
theorem c8_updateFrequency_skip (st : FreqState) (counters : List Int) (now : Int)
    (hv : st.timerValid = true) (ht : now ≤ st.timerStart) :
    updateFrequency st counters now = (st, none) := by
  rw [updateFrequency, if_neg (by simp [hv]), if_pos]
  have : ((now - st.timerStart : Int) : ℚ) ≤ 0 := by
    exact_mod_cast sub_nonpos.mpr ht
  exact div_nonpos_of_nonpos_of_nonneg this (by norm_num)

/-- Witness for C8: an armed tick at the very instant the timer was
started is skipped with the state intact. -/
theorem c8_updateFrequency_skip_witness :
    updateFrequency ⟨true, 400, 7⟩ [1, 2] 400 = (⟨true, 400, 7⟩, none) :=
  c8_updateFrequency_skip ⟨true, 400, 7⟩ [1, 2] 400 rfl (by decide)

/-!
The persistence path.  `MainWindow::onSaveClicked` executes, in order,
`BEGIN TRANSACTION`, `DELETE FROM counters`, one prepared `INSERT` per
counter value, and `COMMIT` — the return value of every `query.exec()`
is ignored, so a failed insert is silently skipped and the transaction
is committed regardless.  `MainWindow::loadCountersFromDatabase` selects
the rows of `counters` and pushes each value onto a vector in row order.
The durable table is modelled as the ordered list of its rows; each
insert attempt carries a flag saying whether its `exec` succeeded.
-/

/-- The rows produced by the insert loop of `onSaveClicked`: an insert
whose `exec` failed adds no row, and the loop continues past it because
the source never checks the result. -/
def runInserts : List (Int × Bool) → List Int
  | [] => []
  | (v, ok) :: rest => (if ok then [v] else []) ++ runInserts rest

/-- `MainWindow::onSaveClicked` over the table model: the `DELETE`
discards the previous rows, the insert loop adds one row per successful
insert, and the unconditional `COMMIT` makes that state durable. -/
def onSaveClicked (counters : List (Int × Bool)) (_table : List Int) : List Int :=
  runInserts counters

/-- `MainWindow::loadCountersFromDatabase` over the table model: the
`SELECT value FROM counters` loop pushes each row's value in row order. -/
def loadCountersFromDatabase (table : List Int) : List Int :=
  table.foldl (fun acc v => acc ++ [v]) []

/-- Auxiliary: the row-reading fold of the load loop appends the rows in
order to its accumulator. -/
theorem loadCounters_foldl (table acc : List Int) :
    table.foldl (fun a v => a ++ [v]) acc = acc ++ table := by
  induction table generalizing acc with
  | nil => simp
  | cons x xs ih => simp [List.foldl_cons, ih]

/-- Auxiliary: when every insert's `exec` succeeds, the insert loop
writes exactly the given values in order. -/
theorem runInserts_all_ok (X : List Int) :
    runInserts (X.map (fun v => (v, true))) = X := by
  induction X with
  | nil => rfl
  | cons x xs ih => simp [runInserts, ih]

/-- C6: for every ordered integer sequence `X`, including the empty one,
`saveAll(X)` (a save in which every insert succeeds) followed by `load()`
yields exactly `X`, whatever the table held before. -/
theorem c6_save_then_load_roundtrip (X table : List Int) :
    loadCountersFromDatabase
      (onSaveClicked (X.map (fun v => (v, true))) table) = X := by
  rw [loadCountersFromDatabase, loadCounters_foldl, onSaveClicked,
    runInserts_all_ok]
  simp

/-- C5 fails on the code: saving `[1, 2]` over a table holding `[5]`,
with the second insert's `exec` failing, commits the table `[1]` — a
mixed state that is neither the previous contents `[5]` nor the new
sequence `[1, 2]`, because the exec results are ignored and the `COMMIT`
runs unconditionally. -/
theorem c5_partial_failure_commits_mixed_state :
    onSaveClicked [(1, true), (2, false)] [5] = [1] ∧
    ([1] : List Int) ≠ [5] ∧ ([1] : List Int) ≠ [1, 2] := by
  decide

/-!
The sum sampled by the rate estimator (claim C10).
-/

/-- Auxiliary: wrapping the left argument before a wrapped add changes
nothing — the wrap is a homomorphism for addition modulo `2^32`. -/
theorem toInt32_add_left (a b : Int) :
    toInt32 (toInt32 a + b) = toInt32 (a + b) := by
  unfold toInt32
  omega

/-- Auxiliary: the wrapped value lies in the `int` range. -/
theorem toInt32_range (n : Int) :
    -2 ^ 31 ≤ toInt32 n ∧ toInt32 n < 2 ^ 31 := by
  unfold toInt32
  omega

/-- Auxiliary: the `int` accumulation started from a wrapped seed equals
the wrap of the exact sum. -/
theorem accumulateInt_from (xs : List Int) (a : Int) :
    xs.foldl (fun acc x => toInt32 (acc + x)) (toInt32 a) =
      toInt32 (a + xs.sum) := by
  induction xs generalizing a with
  | nil => simp [List.foldl_nil]
  | cons x rest ih =>
    rw [List.foldl_cons, toInt32_add_left, ih, List.sum_cons, add_assoc]

/-- C10: the sum the rate estimator samples is accumulated in `int`
arithmetic, so on every collection whose exact sum lies outside the
`int` range the sampled sum is the exact sum reduced into the 32-bit
two's-complement range, and differs from the exact sum. -/
theorem c10_accumulate_wraps (xs : List Int)
    (h : xs.sum < -2 ^ 31 ∨ 2 ^ 31 ≤ xs.sum) :
    accumulateInt xs = toInt32 xs.sum ∧ accumulateInt xs ≠ xs.sum := by
  have h0 : toInt32 0 = 0 := by decide
  have hacc : accumulateInt xs = toInt32 xs.sum := by
    rw [accumulateInt, ← h0, accumulateInt_from, zero_add]
  refine ⟨hacc, ?_⟩
  rw [hacc]
  have hr := toInt32_range xs.sum
  omega

/-- Witness for C10: the two `int`-range values `2^31 - 1` and `1` sum
exactly to `2^31`, but the sampled accumulation wraps to `-2^31`. -/
theorem c10_accumulate_wraps_witness :
    accumulateInt [2 ^ 31 - 1, 1] = -2 ^ 31 ∧
    accumulateInt [2 ^ 31 - 1, 1] ≠ ([2 ^ 31 - 1, 1] : List Int).sum := by
  refine ⟨by decide, (c10_accumulate_wraps [2 ^ 31 - 1, 1] (by decide)).2⟩
